import Mathlib

/-!
Verification of the r53 DNS library (zdnscloud/r53) against its specification.

This file contains a shallow embedding of the name codec and message codec of
the repository (src/name.rs, src/label_slice.rs, src/label_sequence.rs,
src/rrset.rs, src/message.rs) into Lean 4, together with theorems settling the
frozen claims C1..C10.

Conventions of the embedding:
- Bytes and machine integers are modelled as `Nat` (or `Int` for signed values),
  with explicit wrapping (`% 256` for `u8` `as` casts and arithmetic, an
  explicit `i8` wrap for `i8` casts).  Rust `as` casts truncate silently in all
  build profiles and are modelled by `u8wrap`/`i8wrap`.
- Out-of-band failures (a failed `assert!`, indexing out of bounds,
  `Vec::remove` on an empty vector, slicing with an out-of-range bound) are
  modelled by the `RRes.panic` outcome.  Returned errors are `RRes.err`.
- Loops are either translated into structural recursion on an explicitly
  decreasing counter of the source, or into fuel-indexed recursion where the
  source loop has no structural counter; in the latter case the chosen fuel is
  an upper bound on the number of iterations the source loop can make, and the
  fuel-exhaustion branch is unreachable for the wrappers defined here.
- `Vec::with_capacity` is a pure allocation hint and is dropped.
-/

/-- Error enum of src/error.rs (`DNSError`).  `UnknownRRType` carries a `u16`. -/
inductive DNSError where
  | InCompleteWire
  | TooLongName
  | TooLongLabel
  | InvalidDecimalFormat
  | NoneTerminateLabel
  | DuplicatePeriod
  | UnknownRRType (code : Nat)
  | InvalidLabelCharacter
  | BadCompressPointer
  | InCompleteName
  | RdataLenIsNotCorrect
  | InvalidIPv4Address
  | ShortOfQuestion
  | InvalidLabelIndex
deriving DecidableEq, Repr

/-- Outcome of a Rust function returning `Result`: a value, a returned
`DNSError`, or an out-of-band panic (failed `assert!`, out-of-bounds index,
arithmetic that the surrounding code cannot reach, ...). -/
inductive RRes (α : Type) where
  | ok : α → RRes α
  | err : DNSError → RRes α
  | panic : RRes α
deriving DecidableEq, Repr

/-- Projection of a successful result (defaulting elsewhere), used to state
properties of the value inside an `RRes.ok`. -/
def rresGet {α : Type} (default : α) : RRes α → α
  | RRes.ok a => a
  | _ => default

/-- Whether a result is `RRes.ok`. -/
def rresIsOk {α : Type} : RRes α → Bool
  | RRes.ok _ => true
  | _ => false

/-- Truncating cast to `u8` (Rust `as u8`). -/
def u8wrap (n : Nat) : Nat := n % 256

/-- Reinterpret a byte as a signed `i8` value (Rust `as i8`). -/
def toI8 (b : Nat) : Int := if b % 256 < 128 then (b % 256 : Int) else (b % 256 : Int) - 256

/-- Wrap an integer into the `i8` range (the result of wrapping `i8` arithmetic). -/
def i8wrap (x : Int) : Int := (x + 128) % 256 - 128

/-- Tabulation of the 256-entry `MAP_TO_LOWER` table of src/name.rs: the table
maps the ASCII codes of A-Z (0x41-0x5a) to a-z (0x61-0x7a) and every other
byte to itself.  `lower_caes` in the source indexes this table. -/
def lowerCaes (c : Nat) : Nat := if 65 ≤ c ∧ c ≤ 90 then c + 32 else c

/-- Rust `u8::eq_ignore_ascii_case`: equality after ASCII lowercasing (the same
A-Z to a-z map as `MAP_TO_LOWER`). -/
def eqIgnoreAsciiCase (a b : Nat) : Bool := lowerCaes a = lowerCaes b

/-- Tabulation of the 256-entry `DIGITAL_VALUES` table of src/name.rs: decimal
digits map to 0-9, the hexadecimal letters A-F / a-f map to 10-15, every other
byte maps to -1.  `digitvalue` in the source indexes this table. -/
def digitvalue (c : Nat) : Int :=
  if 48 ≤ c ∧ c ≤ 57 then (c : Int) - 48
  else if 65 ≤ c ∧ c ≤ 70 then (c : Int) - 55
  else if 97 ≤ c ∧ c ≤ 102 then (c : Int) - 87
  else -1

/-- `is_digit` of src/name.rs: the character is between '0' (48) and '9' (57). -/
def isDigit (c : Nat) : Bool := 48 ≤ c ∧ c ≤ 57

/-- The `Name` struct of src/name.rs.  `raw` is the wire image, `offsets` the
per-label start indices; both of the stored `length` and `label_count` fields
are `u8` in the source and are therefore stored modulo 256 at creation. -/
structure Name where
  raw : List Nat
  offsets : List Nat
  length : Nat
  label_count : Nat
deriving DecidableEq, Repr

/-- The `root()` constructor of src/name.rs. -/
def rootName : Name := ⟨[0], [0], 1, 1⟩

/-- Parser states (`FtStat`) of the presentation-form parser in src/name.rs. -/
inductive FtStat where
  | Init
  | Start
  | Ordinary
  | Initialescape
  | Escape
  | Escdecimal
deriving DecidableEq, Repr

/-- The code after the main loop of `string_parse` (src/name.rs lines 234-249):
on `done` return the accumulated vectors; otherwise report `TooLongName` when
the wire image filled up exactly, run `assert!(start == end)` (modelled as a
panic when it fails), reject a non-`Ordinary` final state as `InCompleteName`,
run `assert!(count != 0)`, and otherwise close the last label (write its length
byte in place, push the root offset, push the root byte). -/
def spFinish (endp start : Nat) (data offsets : List Nat) (count : Nat)
    (state : FtStat) (done : Bool) : RRes (List Nat × List Nat) :=
  if done then RRes.ok (data, offsets)
  else if data.length = 255 then RRes.err DNSError.TooLongName
  else if start ≠ endp then RRes.panic
  else if state ≠ FtStat.Ordinary then RRes.err DNSError.InCompleteName
  else if count = 0 then RRes.panic
  else
    let data1 := data.set (offsets.getD (offsets.length - 1) 0) count
    RRes.ok (data1 ++ [0], offsets ++ [u8wrap data1.length])

/-- The main loop of `string_parse` (src/name.rs lines 132-232), one fuel step
per consumed input byte.  The source iterations that re-process the current
byte without consuming a new one (`next_u8 = false`: Init falling through to
Start, Start falling through to Ordinary, Escape falling through to
Escdecimal) are inlined into the consuming iteration, which is where the
source's top-of-loop exit checks run.  `break` statements jump to `spFinish`.
The fuel-exhaustion branch is unreachable when the fuel exceeds the number of
remaining input bytes, as every recursive call consumes one byte. -/
def spLoop (raw : List Nat) (endp : Nat) :
    Nat → Nat → List Nat → List Nat → Nat → Nat → Int → FtStat →
    RRes (List Nat × List Nat)
  | 0, _, _, _, _, _, _, _ => RRes.panic
  | fuel + 1, start, data, offsets, count, digits, value, state =>
    if 255 ≤ data.length ∨ start = endp then
      spFinish endp start data offsets count state false
    else
      let c := raw.getD start 0
      let start1 := start + 1
      -- the Ordinary-state body (src lines 168-189); also run, with a fresh
      -- label placeholder and count 0, when Start falls through to it
      let ordinary := fun (data : List Nat) (count : Nat) =>
        if c = 46 then
          if count = 0 then RRes.err DNSError.DuplicatePeriod
          else
            let data1 := data.set (offsets.getD (offsets.length - 1) 0) count
            let offsets1 := offsets ++ [u8wrap data1.length]
            if start1 = endp then RRes.ok (data1 ++ [0], offsets1)
            else spLoop raw endp fuel start1 data1 offsets1 count digits value FtStat.Start
        else if c = 92 then
          spLoop raw endp fuel start1 data offsets count digits value FtStat.Escape
        else if 63 < count + 1 then RRes.err DNSError.TooLongLabel
        else spLoop raw endp fuel start1 (data ++ [c]) offsets (count + 1) digits value
          FtStat.Ordinary
      -- the Escdecimal-state body (src lines 210-228); also run, with digits
      -- and value reset, when Escape falls through to it
      let escdecimal := fun (digits : Nat) (value : Int) =>
        if ¬ isDigit c then RRes.err DNSError.InvalidDecimalFormat
        else
          let value1 := value * 10 + digitvalue c
          let digits1 := digits + 1
          if digits1 = 3 then
            if 255 < value1 then RRes.err DNSError.InvalidDecimalFormat
            else if 63 < count + 1 then RRes.err DNSError.TooLongLabel
            -- note: the source pushes the digit character `c`, not `value1`
            else spLoop raw endp fuel start1 (data ++ [c]) offsets (count + 1) digits1 value1
              FtStat.Ordinary
          else spLoop raw endp fuel start1 data offsets count digits1 value1 FtStat.Escdecimal
      match state with
      | FtStat.Init =>
        if c = 46 then
          if start1 ≠ endp then RRes.err DNSError.NoneTerminateLabel
          else RRes.ok (data ++ [0], offsets)
        else if c = 64 ∧ start1 = endp then RRes.ok (data ++ [0], offsets)
        else
          -- state = Start, next_u8 = false: fall through to the Start body
          let data1 := data ++ [0]
          if c = 92 then spFinish endp start1 data1 offsets 0 FtStat.Initialescape false
          else ordinary data1 0
      | FtStat.Start =>
        let data1 := data ++ [0]
        if c = 92 then spFinish endp start1 data1 offsets 0 FtStat.Initialescape false
        else ordinary data1 0
      | FtStat.Ordinary => ordinary data count
      | FtStat.Initialescape =>
        -- dead state: the only assignment of Initialescape in the source is
        -- immediately followed by `break`, so the loop never dispatches here;
        -- kept for completeness, mirroring src lines 190-195
        if c = 91 then RRes.err DNSError.InvalidLabelCharacter
        else escdecimal digits value
      | FtStat.Escape =>
        if ¬ isDigit c then
          if 63 < count + 1 then RRes.err DNSError.TooLongLabel
          -- the source sets state to Ordinary and then executes `break`,
          -- leaving the loop with the consumed byte appended
          else spFinish endp start1 (data ++ [c]) offsets (count + 1) FtStat.Ordinary false
        else escdecimal 0 0
      | FtStat.Escdecimal => escdecimal digits value

/-- `string_parse(name_raw, 0, name_raw.len())` of src/name.rs: initial state
Init with one offset 0 pushed. -/
def stringParse (raw : List Nat) : RRes (List Nat × List Nat) :=
  spLoop raw raw.length (raw.length + 1) 0 [] [0] 0 0 0 FtStat.Init

/-- `Name::new` of src/name.rs, at the byte level (the `&str` argument is
consumed via `as_bytes`, and `length`/`label_count` are `u8` casts of the
vector lengths). -/
def Name.new (s : List Nat) : RRes Name :=
  match stringParse s with
  | RRes.ok (data, offsets) =>
      RRes.ok ⟨data, offsets, u8wrap data.length, u8wrap offsets.length⟩
  | RRes.err e => RRes.err e
  | RRes.panic => RRes.panic

/-- The Name invariant of spec section 3, as itemized by claim C2: the stored
length is between 1 and 255 and equals the byte length of `raw`; the stored
label count is between 1 and 128 and equals the number of offsets; the offsets
start at 0 and each next offset is the previous one plus that label's length
byte plus one (hence they are strictly increasing with one entry per label);
every non-root label length byte is between 1 and 63; and the final offset
points at the terminating zero-length root label. -/
def NameInv (n : Name) : Prop :=
  1 ≤ n.length ∧ n.length ≤ 255 ∧
  1 ≤ n.label_count ∧ n.label_count ≤ 128 ∧
  n.length = n.raw.length ∧
  n.label_count = n.offsets.length ∧
  n.offsets.getD 0 0 = 0 ∧
  (∀ i < n.offsets.length - 1,
    1 ≤ n.raw.getD (n.offsets.getD i 0) 0 ∧
    n.raw.getD (n.offsets.getD i 0) 0 ≤ 63 ∧
    n.offsets.getD (i + 1) 0 = n.offsets.getD i 0 + n.raw.getD (n.offsets.getD i 0) 0 + 1) ∧
  n.offsets.getD (n.offsets.length - 1) 0 = n.raw.length - 1 ∧
  n.raw.getD (n.raw.length - 1) 0 = 0

instance (n : Name) : Decidable (NameInv n) := by
  unfold NameInv; infer_instance

/-- The `special_char` vector of `Name::to_string` (src/name.rs line 367):
double quote, parentheses, period, semicolon, backslash, at sign, dollar. -/
def specialChar : List Nat := [34, 40, 41, 46, 59, 92, 64, 36]

/-- The inner byte loop of `Name::to_string` (src/name.rs lines 382-397):
emit each of the label's `count` bytes, escaping special characters with a
backslash and non-printable bytes as a three-digit decimal escape; returns the
grown buffer and the advanced index. -/
def toStringLabel (raw : List Nat) : Nat → Nat → List Nat → List Nat × Nat
  | i, 0, buf => (buf, i)
  | i, count + 1, buf =>
    let c := raw.getD i 0
    let buf1 :=
      if specialChar.contains c then buf ++ [92, c]
      else if 32 < c ∧ c < 127 then buf ++ [c]
      else buf ++ [92, 48 + c / 100 % 10, 48 + c / 10 % 10, 48 + c % 10]
    toStringLabel raw (i + 1) count buf1

/-- The outer label loop of `Name::to_string` (src/name.rs lines 369-398),
driven by the stored `length` field.  One fuel step per label; the fuel chosen
by `Name.toStringBytes` exceeds the number of labels, so exhaustion (which
returns the buffer built so far) is unreachable there. -/
def toStringGo (raw : List Nat) (length : Nat) : Nat → Nat → List Nat → List Nat
  | 0, _, buf => buf
  | fuel + 1, i, buf =>
    if i < length then
      let count := raw.getD i 0
      if count = 0 then buf ++ [46]
      else
        let buf1 := if buf.isEmpty then buf else buf ++ [46]
        let r := toStringLabel raw (i + 1) count buf1
        toStringGo raw length fuel r.2 r.1
    else buf

/-- `Name::to_string` of src/name.rs at the byte level (the final
`String::from_utf8_unchecked` is an unchecked byte-transparent wrapper). -/
def Name.toStringBytes (n : Name) : List Nat :=
  toStringGo n.raw n.length (n.length + 1) 0 []

/-- The `NameRelation` enum of src/name.rs. -/
inductive NameRelation where
  | SuperDomain
  | SubDomain
  | Equal
  | CommonAncestor
  | None
deriving DecidableEq, Repr

/-- The `NameComparisonResult` struct of src/name.rs; `order` is an `i8` and is
stored as an already-wrapped integer, `common_label_count` is a `u8`. -/
structure NameComparisonResult where
  order : Int
  common_label_count : Nat
  relation : NameRelation
deriving DecidableEq, Repr

/-- The `LabelSlice` struct of src/label_slice.rs (the borrowed label view):
slices of a name's `raw` and `offsets` plus the selected label range. -/
structure LabelSlice where
  data : List Nat
  offsets : List Nat
  first_label : Nat
  last_label : Nat
deriving DecidableEq, Repr

/-- `LabelSlice::from_name` of src/label_slice.rs. -/
def LabelSlice.fromName (n : Name) : LabelSlice :=
  ⟨n.raw, n.offsets, 0, n.label_count - 1⟩

/-- `LabelSlice::get_label_count` of src/label_slice.rs. -/
def LabelSlice.getLabelCount (s : LabelSlice) : Nat :=
  s.last_label - s.first_label + 1

/-- `LabelSlice::get_data_length` of src/label_slice.rs: distance between the
first and last selected offsets plus the last label's length byte.  The `u8`
arithmetic neither under- nor overflows on a well-formed name. -/
def LabelSlice.getDataLength (s : LabelSlice) : Nat :=
  s.offsets.getD s.last_label 0 - s.offsets.getD s.first_label 0 +
    s.data.getD (s.offsets.getD s.last_label 0) 0

/-- `LabelSlice::get_data` of src/label_slice.rs: the byte range from the first
selected offset spanning `get_data_length + 1` bytes. -/
def LabelSlice.getData (s : LabelSlice) : List Nat :=
  (s.data.drop (s.offsets.getD s.first_label 0)).take (s.getDataLength + 1)

/-- `LabelSlice::equals` of src/label_slice.rs (lines 61-75).  In the
case-insensitive branch the source computes
`data.eq_ignore_ascii_case(other_data);` as a statement, discards the result,
and falls through to `true`. -/
def LabelSlice.equals (s o : LabelSlice) (case_sensitive : Bool) : Bool :=
  let data := s.getData
  let other_data := o.getData
  if data.length ≠ other_data.length then false
  else if case_sensitive then decide (data = other_data)
  else true

/-- The inner byte loop of `LabelSlice::compare` (src/label_slice.rs lines
103-130): walk `count` byte pairs; on the first pair that differs (by wrapped
`u8` subtraction when case-sensitive, by `eq_ignore_ascii_case` otherwise)
return the wrapped `i8` difference `(label1 as i8) - (label2 as i8)`.  The
debug `println!` statements have no effect on the value and are dropped. -/
def compareBytes (d1 d2 : List Nat) (case_sensitive : Bool) :
    Nat → Nat → Nat → Option Int
  | _, _, 0 => none
  | pos1, pos2, count + 1 =>
    let label1 := d1.getD pos1 0
    let label2 := d2.getD pos2 0
    let chdiff : Bool :=
      if case_sensitive then ¬ (label1 + 256 - label2) % 256 ≠ 0
      else eqIgnoreAsciiCase label1 label2
    if ¬ chdiff then some (i8wrap (toI8 label1 - toI8 label2))
    else compareBytes d1 d2 case_sensitive (pos1 + 1) (pos2 + 1) count

/-- The outer label loop of `LabelSlice::compare` (src/label_slice.rs lines
88-155): `l` counts down from `min l1 l2`; each step pairs the labels at
`l1 - 1` and `l2 - 1` (offset by the views' `first_label`), compares their
common-prefix bytes first via `compareBytes`, then their length difference
`cdiff`, and recurses with `nlabels + 1` when the pair is equal; when the pairs
are exhausted the precomputed `ldiff` decides. -/
def compareGo (s o : LabelSlice) (case_sensitive : Bool) (ldiff : Int) :
    Nat → Nat → Nat → Nat → NameComparisonResult
  | 0, _, _, nlabels =>
    ⟨i8wrap ldiff, u8wrap nlabels,
      if ldiff < 0 then NameRelation.SuperDomain
      else if 0 < ldiff then NameRelation.SubDomain
      else NameRelation.Equal⟩
  | l + 1, l1, l2, nlabels =>
    let pos1 := s.offsets.getD (l1 - 1 + s.first_label) 0
    let pos2 := o.offsets.getD (l2 - 1 + o.first_label) 0
    let count1 := s.data.getD pos1 0
    let count2 := o.data.getD pos2 0
    let cdiff : Int := (count1 : Int) - (count2 : Int)
    match compareBytes s.data o.data case_sensitive (pos1 + 1) (pos2 + 1)
        (min count1 count2) with
    | some order =>
      ⟨order, u8wrap nlabels,
        if nlabels = 0 then NameRelation.None else NameRelation.CommonAncestor⟩
    | none =>
      if cdiff ≠ 0 then
        ⟨i8wrap cdiff, u8wrap nlabels,
          if nlabels = 0 then NameRelation.None else NameRelation.CommonAncestor⟩
      else compareGo s o case_sensitive ldiff l (l1 - 1) (l2 - 1) (nlabels + 1)

/-- `LabelSlice::compare` of src/label_slice.rs (lines 81-156). -/
def LabelSlice.compare (s o : LabelSlice) (case_sensitive : Bool) : NameComparisonResult :=
  let l1 := s.getLabelCount
  let l2 := o.getLabelCount
  compareGo s o case_sensitive ((l1 : Int) - (l2 : Int)) (min l1 l2) l1 l2 0

/-- `Name::get_relation` of src/name.rs (lines 403-407): compare the two names
over their full label ranges, case-insensitively.  (The comparison
implementation is `LabelSlice::compare`, the single comparator of spec section
4.5 shared by `get_relation` and ordering.) -/
def Name.getRelation (self other : Name) : NameComparisonResult :=
  (LabelSlice.fromName self).compare (LabelSlice.fromName other) false

/-- The tail-byte loop of `Name::is_subdomain` (src/name.rs lines 642-652):
compare case-folded raw bytes right-to-left while `j > 0`. -/
def isSubdomainGo (sraw praw : List Nat) : Nat → Nat → Bool
  | _, 0 => true
  | i, j + 1 =>
    if lowerCaes (praw.getD (j + 1) 0) ≠ lowerCaes (sraw.getD i 0) then false
    else isSubdomainGo sraw praw (i - 1) j

/-- `Name::is_subdomain` of src/name.rs (lines 637-654): size guards, then the
tail-byte walk over `parent.length - 1` bytes (the parent's byte 0 — its first
label's length byte — is never compared). -/
def Name.isSubdomain (self parent : Name) : Bool :=
  if self.length < parent.length ∨ self.label_count < parent.label_count then false
  else isSubdomainGo self.raw parent.raw (self.length - 1) (parent.length - 1)

/-- Modelled from the spec: the buffer type `src/util/input_buffer.rs` is
re-exported by `src/util/mod.rs` but its source is not under src/.  Per spec
section 4.1 it wraps a byte slice with a cursor; every read fails with
`InCompleteWire` when fewer than the requested bytes remain. -/
structure InputBuffer where
  data : List Nat
  pos : Nat
deriving DecidableEq, Repr

/-- Modelled from the spec (section 4.1): read one byte and advance. -/
def InputBuffer.readU8 (b : InputBuffer) : RRes (Nat × InputBuffer) :=
  if b.pos < b.data.length then RRes.ok (b.data.getD b.pos 0, ⟨b.data, b.pos + 1⟩)
  else RRes.err DNSError.InCompleteWire

/-- Modelled from the spec (section 4.1): read a big-endian `u16`. -/
def InputBuffer.readU16 (b : InputBuffer) : RRes (Nat × InputBuffer) :=
  if b.pos + 2 ≤ b.data.length then
    RRes.ok (b.data.getD b.pos 0 * 256 + b.data.getD (b.pos + 1) 0, ⟨b.data, b.pos + 2⟩)
  else RRes.err DNSError.InCompleteWire

/-- Modelled from the spec (section 4.1): read a big-endian `u32`. -/
def InputBuffer.readU32 (b : InputBuffer) : RRes (Nat × InputBuffer) :=
  if b.pos + 4 ≤ b.data.length then
    RRes.ok
      (((b.data.getD b.pos 0 * 256 + b.data.getD (b.pos + 1) 0) * 256 +
          b.data.getD (b.pos + 2) 0) * 256 + b.data.getD (b.pos + 3) 0,
        ⟨b.data, b.pos + 4⟩)
  else RRes.err DNSError.InCompleteWire

/-- Decoder states (`FwStat`) of the wire-form name decoder in src/name.rs. -/
inductive FwStat where
  | Start
  | Ordinary
  | NewCurrent
deriving DecidableEq, Repr

/-- The main loop of `Name::from_wire` (src/name.rs lines 280-330), one fuel
step per iteration.  The decoder's `current` mirrors the buffer cursor (both
are advanced by each read and both are set to the pointer target on a follow),
so a single `current` is threaded and the final position `pos_beg + cused` is
returned next to the name.  The loop-exit paths map to the post-loop
`InCompleteName` check; the `c == 0` completion inlines the loop exit through
the `done` flag.  The fuel-exhaustion branch is unreachable for the fuel chosen
by `Name.fromWire`: between two pointer follows the loop makes at most
`buf.length` iterations (each advances `current` below `buf.length`), and the
strictly decreasing pointer bound allows at most `pos + 1` follows. -/
def fromWireGo (buf : List Nat) (posBeg : Nat) :
    Nat → Nat → Nat → Nat → List Nat → List Nat → Bool → FwStat → Nat → Nat → Nat →
    RRes (Name × Nat)
  | 0, _, _, _, _, _, _, _, _, _, _ => RRes.panic
  | fuel + 1, n, nused, cused, data, offsets, seenPointer, state, current, biggestPointer,
      newCurrent =>
    if current < buf.length then
      let c := buf.getD current 0
      let current1 := current + 1
      let cused1 := if seenPointer then cused else cused + 1
      match state with
      | FwStat.Start =>
        if c ≤ 63 then
          let offsets1 := offsets ++ [u8wrap nused]
          if 255 < nused + c + 1 then RRes.err DNSError.TooLongName
          else
            let data1 := data ++ [c]
            if c = 0 then
              RRes.ok
                (⟨data1, offsets1, u8wrap data1.length, u8wrap offsets1.length⟩,
                  posBeg + cused1)
            else
              fromWireGo buf posBeg fuel c (nused + c + 1) cused1 data1 offsets1 seenPointer
                FwStat.Ordinary current1 biggestPointer newCurrent
        else if c &&& 192 = 192 then
          fromWireGo buf posBeg fuel 1 nused cused1 data offsets seenPointer
            FwStat.NewCurrent current1 biggestPointer (c &&& 63)
        else RRes.err DNSError.InvalidLabelCharacter
      | FwStat.Ordinary =>
        let data1 := data ++ [c]
        if n - 1 = 0 then
          fromWireGo buf posBeg fuel (n - 1) nused cused1 data1 offsets seenPointer
            FwStat.Start current1 biggestPointer newCurrent
        else
          fromWireGo buf posBeg fuel (n - 1) nused cused1 data1 offsets seenPointer
            FwStat.Ordinary current1 biggestPointer newCurrent
      | FwStat.NewCurrent =>
        let newCurrent1 := newCurrent * 256 + c
        if n - 1 ≠ 0 then RRes.err DNSError.InCompleteName
        else if biggestPointer ≤ newCurrent1 then RRes.err DNSError.BadCompressPointer
        else
          fromWireGo buf posBeg fuel (n - 1) nused cused1 data offsets true
            FwStat.Start newCurrent1 newCurrent1 newCurrent1
    else RRes.err DNSError.InCompleteName

/-- `Name::from_wire` of src/name.rs: run the loop from the buffer's current
position, with that position as the initial pointer bound, and return the name
together with the buffer left at `pos_beg + cused`. -/
def Name.fromWire (b : InputBuffer) : RRes (Name × InputBuffer) :=
  match fromWireGo b.data b.pos ((b.data.length + 2) * (b.pos + 2)) 0 0 0 [] [] false
      FwStat.Start b.pos b.pos 0 with
  | RRes.ok (n, p) => RRes.ok (n, ⟨b.data, p⟩)
  | RRes.err e => RRes.err e
  | RRes.panic => RRes.panic

/-- `Name::concat_all` of src/name.rs (lines 409-449).  The `final_length` and
`final_label_count` accumulators are `u8` in the source, so the additions wrap
modulo 256 (release profile; a debug build panics instead), and the subsequent
`(final_length as usize) > MAX_WIRE_LEN` check compares a `u8` against 255 and
can never fire.  An empty suffix list makes `suffix_count - 1` underflow and
the slice indexing panic.  The offset-rebasing loop adds `last_offset` (a `u8`
addition, wrapped) to exactly the entries appended for the current suffix. -/
def Name.concatAll (self : Name) (suffixes : List Name) : RRes Name :=
  let final_length :=
    suffixes.foldl (fun acc s => u8wrap (acc + u8wrap (s.length + 255))) self.length
  let final_label_count :=
    suffixes.foldl (fun acc s => u8wrap (acc + u8wrap (s.label_count + 255))) self.label_count
  if 255 < final_length then RRes.err DNSError.TooLongName
  else if 128 < final_label_count then RRes.err DNSError.TooLongLabel
  else
    match suffixes.getLast? with
    | none => RRes.panic
    | some last =>
      let raw := self.raw.take (self.length - 1) ++
        suffixes.dropLast.foldl (fun acc s => acc ++ s.raw.take (s.length - 1)) [] ++
        last.raw
      let step := fun (p : List Nat × Nat) (s : Name) =>
        let last_offset := p.1.getD (p.2 - 1) 0
        (p.1 ++ ((s.offsets.drop 1).take (s.label_count - 1)).map
            (fun v => u8wrap (v + last_offset)),
          p.2 + s.label_count - 1)
      let offsets := (suffixes.foldl step (self.offsets, self.label_count)).1
      RRes.ok ⟨raw, offsets, final_length, final_label_count⟩

/-- The countdown loop of `Name::reverse` (src/name.rs lines 463-471): emit the
labels `label_count - 2` down to `0`, each time pushing the running output
length as the label's new offset. -/
def reverseGo (nraw noffsets : List Nat) :
    Nat → List Nat → List Nat → Nat → List Nat × List Nat × Nat
  | 0, raw, offsets, label_len => (raw, offsets, label_len)
  | i + 1, raw, offsets, label_len =>
    let label_start := noffsets.getD i 0
    let label_end := noffsets.getD (i + 1) 0
    reverseGo nraw noffsets i
      (raw ++ (nraw.drop label_start).take (label_end - label_start))
      (offsets ++ [u8wrap label_len]) (label_len + (label_end - label_start))

/-- `Name::reverse` of src/name.rs (lines 455-481). -/
def Name.reverse (self : Name) : Name :=
  if self.label_count = 1 then self
  else
    let r := reverseGo self.raw self.offsets (self.label_count - 1) [] [] 0
    ⟨r.1 ++ [0], r.2.1 ++ [u8wrap r.2.2], self.length, self.label_count⟩

/-- `Name::split` of src/name.rs (lines 483-529).  The `u8` offset subtractions
never underflow on a well-formed name (the offsets are increasing), and the
slices taken are in range there, so they are modelled with `Nat` subtraction
and `take`/`drop`. -/
def Name.split (self : Name) (start_label label_count_arg : Nat) : RRes Name :=
  let max_label_count := self.label_count
  if max_label_count ≤ start_label then RRes.err DNSError.InvalidLabelIndex
  else
    let label_count :=
      if max_label_count < start_label + label_count_arg then max_label_count - start_label
      else label_count_arg
    if start_label + label_count = self.label_count then
      let first_offset := self.offsets.getD start_label 0
      let offsets := self.offsets.drop start_label
      let start_pos := offsets.getD 0 0
      let raw := self.raw.drop start_pos
      RRes.ok ⟨raw, offsets.map (fun v => v - first_offset),
        self.length - start_pos, u8wrap label_count⟩
    else
      let offsets := (self.offsets.drop start_label).take (label_count + 1)
      let raw := (self.raw.drop (offsets.getD 0 0)).take
        (offsets.getD label_count 0 - offsets.getD 0 0)
      let first_offset := self.offsets.getD start_label 0
      RRes.ok ⟨raw ++ [0], offsets.map (fun v => v - first_offset),
        u8wrap (raw.length + 1), u8wrap label_count + 1⟩

/-- `Name::parent` of src/name.rs (lines 531-533). -/
def Name.parent (self : Name) (level : Nat) : RRes Name :=
  self.split level (self.label_count - level)

/-- The inner byte loop of `Name::to_lowercase` (src/name.rs lines 542-546):
map `label_len` bytes from position `p` through the lowercase table. -/
def toLowercaseLabel : List Nat → Nat → Nat → List Nat
  | raw, _, 0 => raw
  | raw, p, k + 1 => toLowercaseLabel (raw.set p (lowerCaes (raw.getD p 0))) (p + 1) k

/-- The outer label loop of `Name::to_lowercase` (src/name.rs lines 538-547):
for each label read its length byte and lowercase the following bytes. -/
def toLowercaseGo : List Nat → Nat → Nat → List Nat
  | raw, _, 0 => raw
  | raw, p, lc + 1 =>
    let label_len := raw.getD p 0
    toLowercaseGo (toLowercaseLabel raw (p + 1) label_len) (p + 1 + label_len) lc

/-- `Name::to_lowercase` of src/name.rs (lines 535-548), as the value of the
name after the in-place mutation. -/
def Name.toLowercase (self : Name) : Name :=
  ⟨toLowercaseGo self.raw 0 self.label_count, self.offsets, self.length, self.label_count⟩

/-- `Name::strip_left` of src/name.rs (lines 550-573).  The failed `assert!` is
a panic.  The subtraction loop rebases the first `new_label_count` entries,
which is the whole copied vector for a well-formed name. -/
def Name.stripLeft (self : Name) (label_count : Nat) : RRes Name :=
  if ¬ label_count < self.label_count then RRes.panic
  else if label_count = 0 then RRes.ok self
  else
    let new_label_count := self.label_count - label_count
    let start_pos := self.offsets.getD label_count 0
    let offsets := (self.offsets.drop label_count).map (fun v => v - u8wrap start_pos)
    let new_length := self.length - start_pos
    RRes.ok ⟨self.raw.drop start_pos, offsets, u8wrap new_length, u8wrap new_label_count⟩

/-- `Name::to_ancestor` of src/name.rs (lines 575-593): the destructive variant
of strip_left; `split_off(label_count)` keeps the tail of the offsets. -/
def Name.toAncestor (self : Name) (label_count : Nat) : RRes Name :=
  if ¬ label_count < self.label_count then RRes.panic
  else if label_count = 0 then RRes.ok self
  else
    let new_label_count := self.label_count - label_count
    let start_pos := self.offsets.getD label_count 0
    let offsets := (self.offsets.drop label_count).map (fun v => v - u8wrap start_pos)
    let new_length := self.length - start_pos
    RRes.ok ⟨self.raw.drop start_pos, offsets, u8wrap new_length, u8wrap new_label_count⟩

/-- `Name::strip_right` of src/name.rs (lines 595-617): keep the offsets up to
`end_label` inclusive and re-root the raw image at `end_pos`. -/
def Name.stripRight (self : Name) (label_count : Nat) : RRes Name :=
  if ¬ label_count < self.label_count then RRes.panic
  else if label_count = 0 then RRes.ok self
  else
    let new_label_count := self.label_count - label_count
    let end_label := new_label_count - 1
    let end_pos := self.offsets.getD end_label 0
    let raw := (self.raw.take (end_pos + 1)).set end_pos 0
    let offsets := self.offsets.take (end_label + 1)
    RRes.ok ⟨raw, offsets, u8wrap (end_pos + 1), u8wrap new_label_count⟩

/-- `Name::to_child` of src/name.rs (lines 619-635): the destructive variant of
strip_right.  Note the discarded `self.offsets.split_off(new_label_count + 1)`
leaves the first `new_label_count + 1` offset entries in place, one more than
the `new_label_count` labels that remain. -/
def Name.toChild (self : Name) (label_count : Nat) : RRes Name :=
  if ¬ label_count < self.label_count then RRes.panic
  else if label_count = 0 then RRes.ok self
  else
    let new_label_count := self.label_count - label_count
    let end_label := new_label_count - 1
    let end_pos := self.offsets.getD end_label 0
    let raw := (self.raw.take (end_pos + 1)).set end_pos 0
    let offsets := self.offsets.take (new_label_count + 1)
    RRes.ok ⟨raw, offsets, u8wrap (end_pos + 1), u8wrap new_label_count⟩

/-- Length byte of label `i` of a name (the byte of `raw` at offset `i`). -/
def labelLenAt (n : Name) (i : Nat) : Nat := n.raw.getD (n.offsets.getD i 0) 0

/-- Case-folded equality of the paired labels `k` from the root: equal length
bytes and pointwise case-folded equal label bytes. -/
def PairFoldEq (a b : Name) (k : Nat) : Prop :=
  labelLenAt a (a.label_count - 1 - k) = labelLenAt b (b.label_count - 1 - k) ∧
  ∀ t < labelLenAt a (a.label_count - 1 - k),
    lowerCaes (a.raw.getD (a.offsets.getD (a.label_count - 1 - k) 0 + 1 + t) 0) =
      lowerCaes (b.raw.getD (b.offsets.getD (b.label_count - 1 - k) 0 + 1 + t) 0)

/-- Bind on `RRes`, threading errors and panics (the `?` operator of the
source, with panics propagated). -/
def rresBind {α β : Type} : RRes α → (α → RRes β) → RRes β
  | RRes.ok a, f => f a
  | RRes.err e, _ => RRes.err e
  | RRes.panic, _ => RRes.panic

/-- The inner byte loop of `impl PartialEq for Name` (src/name.rs lines
708-716): compare `count` case-folded bytes at position `pos` of both wire
images. -/
def nameEqBytes (sraw oraw : List Nat) : Nat → Nat → Bool
  | _, 0 => true
  | pos, count + 1 =>
    if lowerCaes (sraw.getD pos 0) ≠ lowerCaes (oraw.getD pos 0) then false
    else nameEqBytes sraw oraw (pos + 1) count

/-- The outer label loop of `impl PartialEq for Name` (src/name.rs lines
698-718): per label, the length bytes must be equal as-is, then the label
bytes case-folded; `pos` advances by one length byte plus `count` bytes. -/
def nameEqGo (sraw oraw : List Nat) : Nat → Nat → Bool
  | _, 0 => true
  | pos, l + 1 =>
    let count := sraw.getD pos 0
    if count ≠ oraw.getD pos 0 then false
    else if nameEqBytes sraw oraw (pos + 1) count = false then false
    else nameEqGo sraw oraw (pos + 1 + count) l

/-- `impl PartialEq for Name` (src/name.rs lines 692-722). -/
def Name.beq (self other : Name) : Bool :=
  if self.length ≠ other.length ∨ self.label_count ≠ other.label_count then false
  else nameEqGo self.raw other.raw 0 self.label_count

/-- The `RRset` struct of src/rrset.rs.  `typ` and `rrclass` are the `u16`
codes carried by `RRType` / `RRClass` (whose enum-table sources are not under
src/ and are out of the spec's scope, section 1); `ttl` is the `u32` of
`RRTtl`; each rdata is modelled as an opaque byte blob (see `RData.fromWire`).
The `class` field is named `rrclass` here because `class` is reserved in
Lean. -/
structure RRset where
  name : Name
  typ : Nat
  rrclass : Nat
  ttl : Nat
  rdatas : List (List Nat)
deriving DecidableEq, Repr

/-- `RRset::is_same_rrset` of src/rrset.rs (lines 127-129): type codes equal
and names equal under `Name`'s case-insensitive `PartialEq`; the class is not
compared. -/
def RRset.isSameRRset (self other : RRset) : Bool :=
  decide (self.typ = other.typ) && Name.beq self.name other.name

/-- Modelled from the spec: the rdata dispatch `RData::from_wire` (rdata.rs)
is not under src/.  Per spec sections 4.7 and 4.8 the rdata occupies exactly
the `rdlen` bytes following the length field, the per-type decoder must not
read past it, and unknown types decode as opaque bytes; the payload is
modelled as an opaque blob of `rdlen` bytes, failing with `InCompleteWire`
when the buffer is short. -/
def RData.fromWire (buf : InputBuffer) (rdlen : Nat) : RRes (List Nat × InputBuffer) :=
  if buf.pos + rdlen ≤ buf.data.length then
    RRes.ok ((buf.data.drop buf.pos).take rdlen, ⟨buf.data, buf.pos + rdlen⟩)
  else RRes.err DNSError.InCompleteWire

/-- `RRset::from_wire` of src/rrset.rs (lines 41-59): name, type (u16), class
(u16), ttl (u32), rdlen (u16), then one rdata when `rdlen > 0` (otherwise the
rdata list is left empty).  `RRType::from_wire`/`RRClass::from_wire` are
modelled from the spec as bare big-endian `u16` reads (their sources are not
under src/). -/
def RRset.fromWire (buf : InputBuffer) : RRes (RRset × InputBuffer) :=
  rresBind (Name.fromWire buf) fun nb =>
  rresBind (nb.2.readU16) fun tb =>
  rresBind (tb.2.readU16) fun cb =>
  rresBind (cb.2.readU32) fun ttlb =>
  rresBind (ttlb.2.readU16) fun rdb =>
  if 0 < rdb.1 then
    rresBind (RData.fromWire rdb.2 rdb.1) fun datb =>
      RRes.ok (⟨nb.1, tb.1, cb.1, ttlb.1, [datb.1]⟩, datb.2)
  else RRes.ok (⟨nb.1, tb.1, cb.1, ttlb.1, []⟩, rdb.2)

/-- The grouping loop of `Section::from_wire` (src/message.rs lines 41-49),
one step per remaining record: decode the next record; if it `is_same_rrset`
as the accumulated `last` one, move its first rdata onto `last`
(`rrset.rdatas.remove(0)` panics when the record carried no rdata); otherwise
flush `last` and continue with the new record.  The final step (line 50)
flushes `last`. -/
def sectionLoop : Nat → InputBuffer → List RRset → RRset →
    RRes (List RRset × InputBuffer)
  | 0, buf, rrsets, last => RRes.ok (rrsets ++ [last], buf)
  | k + 1, buf, rrsets, last =>
    match RRset.fromWire buf with
    | RRes.ok (rrset, buf1) =>
      if RRset.isSameRRset rrset last then
        match rrset.rdatas with
        | [] => RRes.panic
        | d :: _ => sectionLoop k buf1 rrsets ⟨last.name, last.typ, last.rrclass, last.ttl,
            last.rdatas ++ [d]⟩
      else sectionLoop k buf1 (rrsets ++ [last]) rrset
    | RRes.err e => RRes.err e
    | RRes.panic => RRes.panic

/-- `Section::from_wire` of src/message.rs (lines 34-52): an empty section for
`rr_count = 0`, otherwise decode the first record and run the grouping loop
for the remaining `rr_count - 1` records. -/
def Section.fromWire (buf : InputBuffer) (rr_count : Nat) :
    RRes (Option (List RRset) × InputBuffer) :=
  if rr_count = 0 then RRes.ok (none, buf)
  else
    rresBind (RRset.fromWire buf) fun lb =>
    rresBind (sectionLoop (rr_count - 1) lb.2 [] lb.1) fun rb =>
    RRes.ok (some rb.1, rb.2)

/-- Sequential decode of `k` wire records with no grouping: the list of
records `RRset::from_wire` yields one after the other. -/
def recordsFromWire : Nat → InputBuffer → RRes (List RRset × InputBuffer)
  | 0, buf => RRes.ok ([], buf)
  | k + 1, buf =>
    rresBind (RRset.fromWire buf) fun rb =>
    rresBind (recordsFromWire k rb.2) fun rsb =>
    RRes.ok (rb.1 :: rsb.1, rsb.2)

/-- The grouping policy of `Section::from_wire` as a pure function on the
record list: starting from `last`, each next record is merged into `last`
exactly when `is_same_rrset` holds (type and case-insensitive name equal; the
class is ignored), moving its first rdata (a panic when it has none);
otherwise `last` is flushed and the record starts a new group.  Only adjacent
records are ever compared, so non-adjacent records are never merged. -/
def mergeGo : RRset → List RRset → RRes (List RRset)
  | last, [] => RRes.ok [last]
  | last, r :: rs =>
    if RRset.isSameRRset r last then
      match r.rdatas with
      | [] => RRes.panic
      | d :: _ => mergeGo ⟨last.name, last.typ, last.rrclass, last.ttl,
          last.rdatas ++ [d]⟩ rs
    else
      match mergeGo r rs with
      | RRes.ok tail => RRes.ok (last :: tail)
      | RRes.err e => RRes.err e
      | RRes.panic => RRes.panic

/-- Packaging of a grouping outcome as a section result. -/
def sectionOfMerge (m : RRes (List RRset)) (b : InputBuffer) :
    RRes (Option (List RRset) × InputBuffer) :=
  match m with
  | RRes.ok l => RRes.ok (some l, b)
  | RRes.err e => RRes.err e
  | RRes.panic => RRes.panic

/-- C1.  In `Name::from_wire`, a compression pointer is resolved in state
NewCurrent with its 14-bit target `newCur * 256 + c`; the decode (i) fails with
BadCompressPointer whenever the target is at or above the current bound
`biggestPointer`, and (ii) follows the pointer exactly when the target is
strictly below the bound, in which case the bound becomes the target.  Since
`Name.fromWire` initialises the bound to the decode's start position and (ii)
is the only place the bound changes, the bound is always strictly below every
previously dereferenced pointer and the start position, which is the claim's
rejection condition.  (iii) is the claim's concrete instance: the wire
`[0xc0, 0x00]` decoded at position 0 is rejected with BadCompressPointer. -/
theorem c1_pointer_rejection :
    (∀ (buf : List Nat) (posBeg fuel nused cused : Nat) (data offsets : List Nat)
      (seenPointer : Bool) (current biggest newCur : Nat),
      current < buf.length →
      biggest ≤ newCur * 256 + buf.getD current 0 →
      fromWireGo buf posBeg (fuel + 1) 1 nused cused data offsets seenPointer
        FwStat.NewCurrent current biggest newCur = RRes.err DNSError.BadCompressPointer) ∧
    (∀ (buf : List Nat) (posBeg fuel nused cused : Nat) (data offsets : List Nat)
      (seenPointer : Bool) (current biggest newCur : Nat),
      current < buf.length →
      newCur * 256 + buf.getD current 0 < biggest →
      fromWireGo buf posBeg (fuel + 1) 1 nused cused data offsets seenPointer
        FwStat.NewCurrent current biggest newCur =
        fromWireGo buf posBeg fuel 0 nused (if seenPointer then cused else cused + 1)
          data offsets true FwStat.Start (newCur * 256 + buf.getD current 0)
          (newCur * 256 + buf.getD current 0) (newCur * 256 + buf.getD current 0)) ∧
    Name.fromWire ⟨[192, 0], 0⟩ = RRes.err DNSError.BadCompressPointer := by
  refine ⟨?_, ?_, by decide⟩
  · intro buf posBeg fuel nused cused data offsets seenPointer current biggest newCur hc hb
    simp only [fromWireGo, if_pos hc]
    simp only [Nat.sub_self, ne_eq, not_true_eq_false, if_false, if_pos hb]
  · intro buf posBeg fuel nused cused data offsets seenPointer current biggest newCur hc hb
    simp only [fromWireGo, if_pos hc]
    have : ¬ biggest ≤ newCur * 256 + buf.getD current 0 := Nat.not_le.mpr hb
    simp only [Nat.sub_self, ne_eq, not_true_eq_false, if_false, if_neg this]

/-- Witness for C1: the rejection conjunct applied to the self-pointer
`[0xc0, 0x00]` read at position 1 with bound 0, and the follow conjunct applied
to a pointer at position 2 targeting offset 0 with bound 2. -/
theorem c1_pointer_rejection_witness :
    fromWireGo [192, 0] 0 5 1 0 1 [] [] false FwStat.NewCurrent 1 0 0 =
      RRes.err DNSError.BadCompressPointer ∧
    fromWireGo [0, 0, 192, 0] 2 5 1 0 2 [] [] false FwStat.NewCurrent 3 2 0 =
      fromWireGo [0, 0, 192, 0] 2 4 0 0 3 [] [] true FwStat.Start 0 0 0 :=
  ⟨c1_pointer_rejection.1 [192, 0] 0 4 0 1 [] [] false 1 0 0 (by decide) (by decide),
    c1_pointer_rejection.2.1 [0, 0, 192, 0] 2 4 0 2 [] [] false 3 2 0 (by decide) (by decide)⟩

/-- C2.  The claim states that every Name returned successfully by the listed
operations satisfies the invariant.  `Name::to_child` violates it on ordinary
input: for the valid name `a.b.` (wire image [1, 97, 1, 98, 0], offsets
[0, 2, 4]), `to_child(1)` discards the result of
`self.offsets.split_off(new_label_count + 1)` and therefore keeps three offset
entries [0, 2, 4] while setting `label_count = 2` — the returned name has
`label_count` different from its number of offsets and its last kept offset, 4,
points past its 3-byte raw image, so the invariant fails.  (Its sibling
`strip_right` keeps `new_label_count` entries, which is the correct count.) -/
theorem c2_to_child_breaks_invariant :
    NameInv ⟨[1, 97, 1, 98, 0], [0, 2, 4], 5, 3⟩ ∧
    Name.toChild ⟨[1, 97, 1, 98, 0], [0, 2, 4], 5, 3⟩ 1 =
      RRes.ok ⟨[1, 97, 0], [0, 2, 4], 3, 2⟩ ∧
    ¬ NameInv ⟨[1, 97, 0], [0, 2, 4], 3, 2⟩ := by
  decide

set_option maxRecDepth 8000 in
/-- C9.  The claim states that `concat_all` returns TooLongName whenever the
combined wire length exceeds 255 and never returns a Name exceeding the
limits.  The length accumulator of `Name::concat_all` is a `u8`, so the sum
wraps modulo 256 (a debug build panics at the overflowing addition instead)
and the `(final_length as usize) > MAX_WIRE_LEN` check compares a `u8` against
255 and is dead: concatenating two valid 150-byte names (combined wire length
299) returns `Ok` with a 299-byte raw image and a wrapped stored length of 43
instead of the TooLongName error.  (The label-count half behaves as claimed
only while its own `u8` accumulator does not wrap.) -/
theorem c9_too_long_name_check_is_dead :
    NameInv ⟨63 :: (List.replicate 63 97 ++ [63] ++ List.replicate 63 97 ++ [20] ++
        List.replicate 20 97 ++ [0]), [0, 64, 128, 149], 150, 4⟩ ∧
    rresIsOk (Name.concatAll
        ⟨63 :: (List.replicate 63 97 ++ [63] ++ List.replicate 63 97 ++ [20] ++
          List.replicate 20 97 ++ [0]), [0, 64, 128, 149], 150, 4⟩
        [⟨63 :: (List.replicate 63 97 ++ [63] ++ List.replicate 63 97 ++ [20] ++
          List.replicate 20 97 ++ [0]), [0, 64, 128, 149], 150, 4⟩]) = true ∧
    (rresGet rootName (Name.concatAll
        ⟨63 :: (List.replicate 63 97 ++ [63] ++ List.replicate 63 97 ++ [20] ++
          List.replicate 20 97 ++ [0]), [0, 64, 128, 149], 150, 4⟩
        [⟨63 :: (List.replicate 63 97 ++ [63] ++ List.replicate 63 97 ++ [20] ++
          List.replicate 20 97 ++ [0]), [0, 64, 128, 149], 150, 4⟩])).raw.length = 299 ∧
    (rresGet rootName (Name.concatAll
        ⟨63 :: (List.replicate 63 97 ++ [63] ++ List.replicate 63 97 ++ [20] ++
          List.replicate 20 97 ++ [0]), [0, 64, 128, 149], 150, 4⟩
        [⟨63 :: (List.replicate 63 97 ++ [63] ++ List.replicate 63 97 ++ [20] ++
          List.replicate 20 97 ++ [0]), [0, 64, 128, 149], 150, 4⟩])).length = 43 := by
  decide

/-- C4.  The claim states that parsing the escape `\DDD` appends the byte whose
numeric value is DDD, so that `\065` appends byte 65.  The code of
`string_parse` (src/name.rs line 225) computes and range-checks `value` but
then pushes the last digit character `c` instead: parsing `"a\065"` produces
the label bytes `[97, 53]` (the byte 53 is the character '5'), not `[97, 65]`.
The rejection halves of the claim do hold: a value above 255 (`"a\999"`) and a
non-digit among the three characters (`"a\06x"`) fail with
InvalidDecimalFormat. -/
theorem c4_escape_decimal_appends_digit_char :
    Name.new [97, 92, 48, 54, 53] =
      RRes.ok ⟨[2, 97, 53, 0], [0, 3], 4, 2⟩ ∧
    (53 : Nat) ≠ 65 ∧
    Name.new [97, 92, 57, 57, 57] = RRes.err DNSError.InvalidDecimalFormat ∧
    Name.new [97, 92, 48, 54, 120] = RRes.err DNSError.InvalidDecimalFormat := by
  decide

/-- C5.  The claim states the presentation round trip `Name::new(n.to_string())`
succeeds and returns a name equal to `n` for every valid name, including names
with non-printable bytes.  It fails: the valid name with wire image [1, 1, 0]
(single label consisting of the byte 0x01) prints as the five characters
`\001.`, and re-parsing that string panics, because `string_parse` leaves its
loop via the `break` in the Start state's backslash branch (src/name.rs line
164) and then fails the `assert!(start == end)` at line 238. -/
theorem c5_roundtrip_fails :
    NameInv ⟨[1, 1, 0], [0, 2], 3, 2⟩ ∧
    Name.toStringBytes ⟨[1, 1, 0], [0, 2], 3, 2⟩ = [92, 48, 48, 49, 46] ∧
    Name.new [92, 48, 48, 49, 46] = RRes.panic := by
  decide

/-- C10.  The claim states `LabelSlice::equals` with `case_sensitive = false`
returns true iff the slices' data are byte-for-byte equal after ASCII case
folding, and in particular that equal-length slices whose letters all differ
compare unequal.  The source (src/label_slice.rs line 72) computes
`eq_ignore_ascii_case` as a statement, drops the result, and returns true for
every pair of equal-length slices: the full slices of the names `a.` and `b.`
have equal length, their case-folded data differ, and yet `equals` returns
true (while the case-sensitive path correctly returns false). -/
theorem c10_case_insensitive_equals_drops_result :
    LabelSlice.equals ⟨[1, 97, 0], [0, 2], 0, 1⟩ ⟨[1, 98, 0], [0, 2], 0, 1⟩ false = true ∧
    (LabelSlice.getData ⟨[1, 97, 0], [0, 2], 0, 1⟩).map lowerCaes ≠
      (LabelSlice.getData ⟨[1, 98, 0], [0, 2], 0, 1⟩).map lowerCaes ∧
    LabelSlice.equals ⟨[1, 97, 0], [0, 2], 0, 1⟩ ⟨[1, 98, 0], [0, 2], 0, 1⟩ true = false := by
  decide

/-- C6 counterexample.  The claim states the label lengths are compared first,
bytes only when the lengths are equal, so that when the first differing paired
labels have different lengths the sign of `order` is the sign of the length
difference.  For the valid names `aa.` and `z.` the first differing paired
labels are `aa` (length 2) and `z` (length 1), so the claim predicts a
positive `order`; the code compares the common-prefix bytes first
(src/label_slice.rs lines 103-130) and returns
`order = 'a' - 'z' = 97 - 122 = -25 < 0`. -/
theorem c6_counterexample_bytes_before_lengths :
    NameInv ⟨[2, 97, 97, 0], [0, 3], 4, 2⟩ ∧
    NameInv ⟨[1, 122, 0], [0, 2], 3, 2⟩ ∧
    (Name.getRelation ⟨[2, 97, 97, 0], [0, 3], 4, 2⟩ ⟨[1, 122, 0], [0, 2], 3, 2⟩).order = -25 ∧
    ¬ 0 < (Name.getRelation ⟨[2, 97, 97, 0], [0, 3], 4, 2⟩ ⟨[1, 122, 0], [0, 2], 3, 2⟩).order := by
  decide

/-- C7 counterexample.  The claim states `a.is_subdomain(b)` iff
`a.get_relation(b).relation` is Equal or SubDomain.  `is_subdomain` skips the
parent's first length byte (its loop stops at `j = 1`), so for the valid names
`a = xab.` and `b = ab.` the compared tail `ab.` matches even though the label
`xab` is not the label `ab`: `is_subdomain` returns true while the relation is
CommonAncestor. -/
theorem c7_counterexample_iff_fails :
    NameInv ⟨[3, 120, 97, 98, 0], [0, 4], 5, 2⟩ ∧
    NameInv ⟨[2, 97, 98, 0], [0, 3], 4, 2⟩ ∧
    Name.isSubdomain ⟨[3, 120, 97, 98, 0], [0, 4], 5, 2⟩ ⟨[2, 97, 98, 0], [0, 3], 4, 2⟩ = true ∧
    (Name.getRelation ⟨[3, 120, 97, 98, 0], [0, 4], 5, 2⟩
        ⟨[2, 97, 98, 0], [0, 3], 4, 2⟩).relation = NameRelation.CommonAncestor := by
  decide

theorem compareBytes_none (d1 d2 : List Nat) :
    ∀ (c p1 p2 : Nat),
      (∀ t < c, lowerCaes (d1.getD (p1 + t) 0) = lowerCaes (d2.getD (p2 + t) 0)) →
      compareBytes d1 d2 false p1 p2 c = none := by
  intro c
  induction c with
  | zero => intro p1 p2 _; rfl
  | succ c ih =>
    intro p1 p2 h
    have h0 := h 0 (Nat.succ_pos c)
    simp only [Nat.add_zero] at h0
    simp only [compareBytes, eqIgnoreAsciiCase, h0, decide_True]
    rw [if_neg (by simp)]
    apply ih
    intro t ht
    have h1 := h (t + 1) (by omega)
    have e1 : p1 + (t + 1) = p1 + 1 + t := by omega
    have e2 : p2 + (t + 1) = p2 + 1 + t := by omega
    rw [e1, e2] at h1
    exact h1

theorem i8wrap_small (x : Int) (h1 : -128 ≤ x) (h2 : x ≤ 127) : i8wrap x = x := by
  unfold i8wrap
  omega

theorem c6walk (a b : Name) (m : Nat) (hma : m < a.label_count) (hmb : m < b.label_count)
    (ldiff : Int)
    (hpref : ∀ t < min (labelLenAt a (a.label_count - 1 - m))
        (labelLenAt b (b.label_count - 1 - m)),
      lowerCaes (a.raw.getD (a.offsets.getD (a.label_count - 1 - m) 0 + 1 + t) 0) =
        lowerCaes (b.raw.getD (b.offsets.getD (b.label_count - 1 - m) 0 + 1 + t) 0))
    (hdiff : labelLenAt a (a.label_count - 1 - m) ≠ labelLenAt b (b.label_count - 1 - m)) :
    ∀ d j, j + d = m → (∀ k, j ≤ k → k < m → PairFoldEq a b k) →
      compareGo (LabelSlice.fromName a) (LabelSlice.fromName b) false ldiff
        (min a.label_count b.label_count - j) (a.label_count - j) (b.label_count - j) j =
      ⟨i8wrap ((labelLenAt a (a.label_count - 1 - m) : Int) -
          (labelLenAt b (b.label_count - 1 - m) : Int)), u8wrap m,
        if m = 0 then NameRelation.None else NameRelation.CommonAncestor⟩ := by
  intro d
  induction d with
  | zero =>
    intro j hj _
    have hjm : j = m := by omega
    subst hjm
    have hl : min a.label_count b.label_count - j =
        min a.label_count b.label_count - j - 1 + 1 := by omega
    rw [hl]
    simp only [compareGo, LabelSlice.fromName, Nat.add_zero]
    have e1 : a.label_count - j - 1 = a.label_count - 1 - j := by omega
    have e2 : b.label_count - j - 1 = b.label_count - 1 - j := by omega
    rw [e1, e2]
    simp only [labelLenAt] at hpref hdiff ⊢
    rw [compareBytes_none a.raw b.raw _ _ _ hpref]
    have hcd : ((a.raw.getD (a.offsets.getD (a.label_count - 1 - j) 0) 0 : Int) -
        (b.raw.getD (b.offsets.getD (b.label_count - 1 - j) 0) 0 : Int)) ≠ 0 := by
      intro hcon
      apply hdiff
      omega
    simp only [if_pos hcd]
  | succ d ih =>
    intro j hj hpairs
    have hjm : j < m := by omega
    have hl : min a.label_count b.label_count - j =
        min a.label_count b.label_count - j - 1 + 1 := by omega
    rw [hl]
    simp only [compareGo, LabelSlice.fromName, Nat.add_zero]
    have e1 : a.label_count - j - 1 = a.label_count - 1 - j := by omega
    have e2 : b.label_count - j - 1 = b.label_count - 1 - j := by omega
    rw [e1, e2]
    obtain ⟨hlen, hbytes⟩ := hpairs j (Nat.le_refl j) hjm
    simp only [labelLenAt] at hlen hbytes
    rw [← hlen, Nat.min_self]
    rw [compareBytes_none a.raw b.raw _ _ _ hbytes]
    have hcd : ¬ ((a.raw.getD (a.offsets.getD (a.label_count - 1 - j) 0) 0 : Int) -
        (a.raw.getD (a.offsets.getD (a.label_count - 1 - j) 0) 0 : Int)) ≠ 0 := by
      simp
    simp only [if_neg hcd]
    have e3 : a.label_count - 1 - j = a.label_count - (j + 1) := by omega
    have e4 : b.label_count - 1 - j = b.label_count - (j + 1) := by omega
    have e5 : min a.label_count b.label_count - j - 1 =
        min a.label_count b.label_count - (j + 1) := by omega
    rw [e3, e4, e5]
    exact ih (j + 1) (by omega) (fun k hk1 hk2 => hpairs k (by omega) hk2)

/-- C6 amended.  In the right-to-left label walk of `get_relation` /
`LabelSlice::compare`, for each paired label the bytes of the common prefix are
compared first (case-insensitively by default) and the label lengths decide
only when those bytes are all equal; consequently, for every pair of valid
names whose paired labels before pair `m` are case-foldedly equal and whose
pair `m` has case-foldedly equal common-prefix bytes but different lengths,
`order` is exactly the length difference (an `i8`-exact value, as labels are at
most 63 bytes), so its sign is the sign of the length difference. -/
theorem c6_amended_common_prefix_first (a b : Name) (ha : NameInv a) (hb : NameInv b)
    (m : Nat) (hma : m < a.label_count) (hmb : m < b.label_count)
    (hprev : ∀ k < m, PairFoldEq a b k)
    (hpref : ∀ t < min (labelLenAt a (a.label_count - 1 - m))
        (labelLenAt b (b.label_count - 1 - m)),
      lowerCaes (a.raw.getD (a.offsets.getD (a.label_count - 1 - m) 0 + 1 + t) 0) =
        lowerCaes (b.raw.getD (b.offsets.getD (b.label_count - 1 - m) 0 + 1 + t) 0))
    (hdiff : labelLenAt a (a.label_count - 1 - m) ≠ labelLenAt b (b.label_count - 1 - m)) :
    (Name.getRelation a b).order =
      (labelLenAt a (a.label_count - 1 - m) : Int) -
        (labelLenAt b (b.label_count - 1 - m) : Int) ∧
    (0 < (Name.getRelation a b).order ↔
      labelLenAt b (b.label_count - 1 - m) < labelLenAt a (a.label_count - 1 - m)) ∧
    ((Name.getRelation a b).order < 0 ↔
      labelLenAt a (a.label_count - 1 - m) < labelLenAt b (b.label_count - 1 - m)) := by
  obtain ⟨ha1, ha2, ha3, ha4, ha5, ha6, ha7, ha8, ha9, ha10⟩ := ha
  obtain ⟨hb1, hb2, hb3, hb4, hb5, hb6, hb7, hb8, hb9, hb10⟩ := hb
  have hla : a.label_count - 1 + 1 = a.label_count := by omega
  have hlb : b.label_count - 1 + 1 = b.label_count := by omega
  have hrel : Name.getRelation a b =
      compareGo (LabelSlice.fromName a) (LabelSlice.fromName b) false
        ((a.label_count : Int) - (b.label_count : Int))
        (min a.label_count b.label_count) a.label_count b.label_count 0 := by
    unfold Name.getRelation LabelSlice.compare LabelSlice.getLabelCount LabelSlice.fromName
    simp only [Nat.sub_zero]
    rw [hla, hlb]
  have hwalk := c6walk a b m hma hmb ((a.label_count : Int) - (b.label_count : Int))
    hpref hdiff m 0 (by omega) (fun k _ hk => hprev k hk)
  simp only [Nat.sub_zero] at hwalk
  rw [hrel, hwalk]
  -- bounds on the two length bytes: both are 0 when m = 0 (the root pair,
  -- contradicting hdiff), and lie in [1, 63] otherwise by the invariant
  have hbnd : labelLenAt a (a.label_count - 1 - m) ≤ 63 ∧
      labelLenAt b (b.label_count - 1 - m) ≤ 63 := by
    rcases Nat.eq_zero_or_pos m with hm0 | hmpos
    · subst hm0
      exfalso
      apply hdiff
      have hia : a.label_count - 1 - 0 = a.offsets.length - 1 := by omega
      have hib : b.label_count - 1 - 0 = b.offsets.length - 1 := by omega
      unfold labelLenAt
      rw [hia, hib, ha9, hb9, ha10, hb10]
    · constructor
      · have hia : a.label_count - 1 - m < a.offsets.length - 1 := by omega
        exact (ha8 (a.label_count - 1 - m) hia).2.1
      · have hib : b.label_count - 1 - m < b.offsets.length - 1 := by omega
        exact (hb8 (b.label_count - 1 - m) hib).2.1
  have hwr : i8wrap ((labelLenAt a (a.label_count - 1 - m) : Int) -
      (labelLenAt b (b.label_count - 1 - m) : Int)) =
      (labelLenAt a (a.label_count - 1 - m) : Int) -
        (labelLenAt b (b.label_count - 1 - m) : Int) := by
    apply i8wrap_small <;> omega
  have hproj : (⟨i8wrap ((labelLenAt a (a.label_count - 1 - m) : Int) -
      (labelLenAt b (b.label_count - 1 - m) : Int)), u8wrap m,
      if m = 0 then NameRelation.None else NameRelation.CommonAncestor⟩ :
        NameComparisonResult).order =
      i8wrap ((labelLenAt a (a.label_count - 1 - m) : Int) -
        (labelLenAt b (b.label_count - 1 - m) : Int)) := rfl
  rw [hproj, hwr]
  refine ⟨rfl, ?_, ?_⟩ <;> omega

/-- Witness for the amended C6: the valid names `ab.` and `a.` agree on the
root pair and on the common prefix `a` of their first labels, whose lengths 2
and 1 differ, and `order` is 2 - 1 = 1 > 0. -/
theorem c6_amended_common_prefix_first_witness :
    (Name.getRelation ⟨[2, 97, 98, 0], [0, 3], 4, 2⟩ ⟨[1, 97, 0], [0, 2], 3, 2⟩).order = 1 :=
  by
  have h := c6_amended_common_prefix_first
    ⟨[2, 97, 98, 0], [0, 3], 4, 2⟩ ⟨[1, 97, 0], [0, 2], 3, 2⟩
    (by decide) (by decide) 1 (by decide) (by decide)
    (by
      intro k hk
      interval_cases k
      constructor
      · decide
      · intro t ht
        simp only [show labelLenAt ⟨[2, 97, 98, 0], [0, 3], 4, 2⟩ (2 - 1 - 0) = 0 from rfl] at ht
        omega)
    (by decide) (by decide)
  rw [h.1]
  decide

theorem compareBytes_none_imp (d1 d2 : List Nat) :
    ∀ (c p1 p2 : Nat), compareBytes d1 d2 false p1 p2 c = none →
      ∀ t < c, lowerCaes (d1.getD (p1 + t) 0) = lowerCaes (d2.getD (p2 + t) 0) := by
  intro c
  induction c with
  | zero => intro p1 p2 _ t ht; omega
  | succ c ih =>
    intro p1 p2 h t ht
    simp only [compareBytes, eqIgnoreAsciiCase, Bool.false_eq_true, if_false] at h
    split at h
    · simp at h
    · next heq =>
        match t with
        | 0 => simpa using heq
        | t + 1 =>
          have h3 := ih (p1 + 1) (p2 + 1) h t (by omega)
          have e1 : p1 + 1 + t = p1 + (t + 1) := by omega
          have e2 : p2 + 1 + t = p2 + (t + 1) := by omega
          rw [e1, e2] at h3
          exact h3

theorem c7_walk_all_pairs (a b : Name) :
    ∀ (l nl : Nat) (ldiff : Int),
      nl + l ≤ a.label_count → nl + l ≤ b.label_count →
      ((compareGo (LabelSlice.fromName a) (LabelSlice.fromName b) false ldiff
          l (a.label_count - nl) (b.label_count - nl) nl).relation = NameRelation.Equal ∨
        (compareGo (LabelSlice.fromName a) (LabelSlice.fromName b) false ldiff
          l (a.label_count - nl) (b.label_count - nl) nl).relation = NameRelation.SubDomain) →
      (∀ k, nl ≤ k → k < nl + l → PairFoldEq a b k) ∧ 0 ≤ ldiff := by
  intro l
  induction l with
  | zero =>
    intro nl ldiff _ _ hrel
    refine ⟨fun k hk1 hk2 => absurd hk2 (by omega), ?_⟩
    by_contra hneg
    have hlt : ldiff < 0 := by omega
    simp only [compareGo, if_pos hlt] at hrel
    rcases hrel with h | h <;> cases h
  | succ l ih =>
    intro nl ldiff hla hlb hrel
    simp only [compareGo, LabelSlice.fromName, Nat.add_zero] at hrel
    have e1 : a.label_count - nl - 1 = a.label_count - 1 - nl := by omega
    have e2 : b.label_count - nl - 1 = b.label_count - 1 - nl := by omega
    rw [e1, e2] at hrel
    cases hcb : compareBytes a.raw b.raw false
        (a.offsets.getD (a.label_count - 1 - nl) 0 + 1)
        (b.offsets.getD (b.label_count - 1 - nl) 0 + 1)
        (min (a.raw.getD (a.offsets.getD (a.label_count - 1 - nl) 0) 0)
          (b.raw.getD (b.offsets.getD (b.label_count - 1 - nl) 0) 0)) with
    | some order =>
      rw [hcb] at hrel
      simp only [] at hrel
      rcases hrel with h | h <;>
        · by_cases hnl : nl = 0 <;> simp [hnl] at h
    | none =>
      rw [hcb] at hrel
      simp only [] at hrel
      by_cases hcd : ((a.raw.getD (a.offsets.getD (a.label_count - 1 - nl) 0) 0 : Int) -
          (b.raw.getD (b.offsets.getD (b.label_count - 1 - nl) 0) 0 : Int)) ≠ 0
      · rw [if_pos hcd] at hrel
        rcases hrel with h | h <;>
          · by_cases hnl : nl = 0 <;> simp [hnl] at h
      · rw [if_neg hcd] at hrel
        have hlen : a.raw.getD (a.offsets.getD (a.label_count - 1 - nl) 0) 0 =
            b.raw.getD (b.offsets.getD (b.label_count - 1 - nl) 0) 0 := by omega
        have e3 : a.label_count - nl - 1 = a.label_count - (nl + 1) := by omega
        have e4 : b.label_count - nl - 1 = b.label_count - (nl + 1) := by omega
        rw [e1.symm.trans e3, e2.symm.trans e4] at hrel
        have hrec := ih (nl + 1) ldiff (by omega) (by omega) hrel
        refine ⟨?_, hrec.2⟩
        intro k hk1 hk2
        rcases Nat.lt_or_ge nl k with hgt | hle
        · exact hrec.1 k (by omega) (by omega)
        · have hknl : k = nl := by omega
          subst hknl
          constructor
          · exact hlen
          · intro t ht
            simp only [labelLenAt] at ht
            refine compareBytes_none_imp a.raw b.raw _ _ _ hcb t ?_
            rw [Nat.lt_min]
            exact ⟨ht, hlen ▸ ht⟩

theorem inv_offset_le (n : Name)
    (h8 : ∀ i < n.offsets.length - 1,
      1 ≤ n.raw.getD (n.offsets.getD i 0) 0 ∧
      n.raw.getD (n.offsets.getD i 0) 0 ≤ 63 ∧
      n.offsets.getD (i + 1) 0 = n.offsets.getD i 0 + n.raw.getD (n.offsets.getD i 0) 0 + 1)
    (h9 : n.offsets.getD (n.offsets.length - 1) 0 = n.raw.length - 1) :
    ∀ d i, i + d = n.offsets.length - 1 → n.offsets.getD i 0 + d ≤ n.raw.length - 1 := by
  intro d
  induction d with
  | zero =>
    intro i hi
    have hieq : i = n.offsets.length - 1 := by omega
    rw [hieq, h9]
    omega
  | succ d ihd =>
    intro i hi
    have h1 := ihd (i + 1) (by omega)
    have h2 := h8 i (by omega)
    omega

theorem c7_suffix (a b : Name) (ha : NameInv a) (hb : NameInv b)
    (hlab : b.label_count ≤ a.label_count)
    (hpairs : ∀ k < b.label_count, PairFoldEq a b k) :
    ∀ k, k < b.label_count →
      (a.raw.length - a.offsets.getD (a.label_count - 1 - k) 0 =
        b.raw.length - b.offsets.getD (b.label_count - 1 - k) 0) ∧
      ∀ j < b.raw.length - b.offsets.getD (b.label_count - 1 - k) 0,
        lowerCaes (a.raw.getD (a.offsets.getD (a.label_count - 1 - k) 0 + j) 0) =
          lowerCaes (b.raw.getD (b.offsets.getD (b.label_count - 1 - k) 0 + j) 0) := by
  obtain ⟨ha1, ha2, ha3, ha4, ha5, ha6, ha7, ha8, ha9, ha10⟩ := ha
  obtain ⟨hb1, hb2, hb3, hb4, hb5, hb6, hb7, hb8, hb9, hb10⟩ := hb
  intro k
  induction k with
  | zero =>
    intro hk
    have eia : a.label_count - 1 - 0 = a.offsets.length - 1 := by omega
    have eib : b.label_count - 1 - 0 = b.offsets.length - 1 := by omega
    rw [eia, eib, ha9, hb9]
    constructor
    · omega
    · intro j hj
      have hj0 : j = 0 := by omega
      subst hj0
      have e1 : a.raw.length - 1 + 0 = a.raw.length - 1 := by omega
      have e2 : b.raw.length - 1 + 0 = b.raw.length - 1 := by omega
      rw [e1, e2, ha10, hb10]
  | succ k ih =>
    intro hk
    obtain ⟨hsize, hbytesk⟩ := ih (by omega)
    have hiA : a.label_count - 1 - (k + 1) < a.offsets.length - 1 := by omega
    have hiB : b.label_count - 1 - (k + 1) < b.offsets.length - 1 := by omega
    obtain ⟨hA1, hA63, hAsucc⟩ := ha8 (a.label_count - 1 - (k + 1)) hiA
    obtain ⟨hB1, hB63, hBsucc⟩ := hb8 (b.label_count - 1 - (k + 1)) hiB
    have eA : a.label_count - 1 - (k + 1) + 1 = a.label_count - 1 - k := by omega
    have eB : b.label_count - 1 - (k + 1) + 1 = b.label_count - 1 - k := by omega
    rw [eA] at hAsucc
    rw [eB] at hBsucc
    obtain ⟨hplen, hpbytes⟩ := hpairs (k + 1) hk
    simp only [labelLenAt] at hplen hpbytes
    have hbA : a.offsets.getD (a.label_count - 1 - k) 0 ≤ a.raw.length - 1 := by
      have h := inv_offset_le a ha8 ha9
        (a.offsets.length - 1 - (a.label_count - 1 - k)) (a.label_count - 1 - k) (by omega)
      omega
    have hbB : b.offsets.getD (b.label_count - 1 - k) 0 ≤ b.raw.length - 1 := by
      have h := inv_offset_le b hb8 hb9
        (b.offsets.length - 1 - (b.label_count - 1 - k)) (b.label_count - 1 - k) (by omega)
      omega
    constructor
    · omega
    · intro j hj
      rcases Nat.eq_zero_or_pos j with hj0 | hjpos
      · subst hj0
        simp only [Nat.add_zero]
        rw [hplen]
      · rcases Nat.lt_or_ge j
            (a.raw.getD (a.offsets.getD (a.label_count - 1 - (k + 1)) 0) 0 + 1) with
          hjs | hjb
        · have ht := hpbytes (j - 1) (by omega)
          have e1 : a.offsets.getD (a.label_count - 1 - (k + 1)) 0 + 1 + (j - 1) =
              a.offsets.getD (a.label_count - 1 - (k + 1)) 0 + j := by omega
          have e2 : b.offsets.getD (b.label_count - 1 - (k + 1)) 0 + 1 + (j - 1) =
              b.offsets.getD (b.label_count - 1 - (k + 1)) 0 + j := by omega
          rw [e1, e2] at ht
          exact ht
        · have hby := hbytesk
            (j - (a.raw.getD (a.offsets.getD (a.label_count - 1 - (k + 1)) 0) 0 + 1))
            (by omega)
          have e1 : a.offsets.getD (a.label_count - 1 - k) 0 +
              (j - (a.raw.getD (a.offsets.getD (a.label_count - 1 - (k + 1)) 0) 0 + 1)) =
              a.offsets.getD (a.label_count - 1 - (k + 1)) 0 + j := by omega
          have e2 : b.offsets.getD (b.label_count - 1 - k) 0 +
              (j - (a.raw.getD (a.offsets.getD (a.label_count - 1 - (k + 1)) 0) 0 + 1)) =
              b.offsets.getD (b.label_count - 1 - (k + 1)) 0 + j := by omega
          rw [e1, e2] at hby
          exact hby

theorem c7_subGo (sraw praw : List Nat) :
    ∀ (j i : Nat), j ≤ i →
      (∀ t, 1 ≤ t → t ≤ j →
        lowerCaes (praw.getD t 0) = lowerCaes (sraw.getD (i - (j - t)) 0)) →
      isSubdomainGo sraw praw i j = true := by
  intro j
  induction j with
  | zero => intro i _ _; rfl
  | succ j ihj =>
    intro i hij h
    have h0 := h (j + 1) (by omega) (Nat.le_refl _)
    have e0 : i - (j + 1 - (j + 1)) = i := by omega
    rw [e0] at h0
    simp only [isSubdomainGo]
    rw [if_neg (by simpa using h0)]
    apply ihj (i - 1) (by omega)
    intro t h1 h2
    have h3 := h t h1 (by omega)
    have e1 : i - (j + 1 - t) = i - 1 - (j - t) := by omega
    rw [e1] at h3
    exact h3

/-- C7 amended.  The claim's equivalence fails (see the counterexample), but
its right-to-left direction holds: for all valid names, if
`a.get_relation(b).relation` is Equal or SubDomain then `a.is_subdomain(b)`
returns true.  (The converse is false: `is_subdomain` compares only the last
`parent.length - 1` bytes, never the parent's first label-length byte, and so
also accepts some non-subdomains.) -/
theorem c7_amended_relation_implies_subdomain (a b : Name)
    (ha : NameInv a) (hb : NameInv b)
    (hrel : (Name.getRelation a b).relation = NameRelation.Equal ∨
      (Name.getRelation a b).relation = NameRelation.SubDomain) :
    Name.isSubdomain a b = true := by
  have hac := ha
  have hbc := hb
  obtain ⟨ha1, ha2, ha3, ha4, ha5, ha6, ha7, ha8, ha9, ha10⟩ := hac
  obtain ⟨hb1, hb2, hb3, hb4, hb5, hb6, hb7, hb8, hb9, hb10⟩ := hbc
  have hla : a.label_count - 1 + 1 = a.label_count := by omega
  have hlb : b.label_count - 1 + 1 = b.label_count := by omega
  have hgr : Name.getRelation a b =
      compareGo (LabelSlice.fromName a) (LabelSlice.fromName b) false
        ((a.label_count : Int) - (b.label_count : Int))
        (min a.label_count b.label_count) a.label_count b.label_count 0 := by
    unfold Name.getRelation LabelSlice.compare LabelSlice.getLabelCount LabelSlice.fromName
    simp only [Nat.sub_zero]
    rw [hla, hlb]
  rw [hgr] at hrel
  obtain ⟨hpairs0, hldiff⟩ := c7_walk_all_pairs a b (min a.label_count b.label_count) 0
    ((a.label_count : Int) - (b.label_count : Int)) (by omega) (by omega)
    (by simpa using hrel)
  have hble : b.label_count ≤ a.label_count := by omega
  have hmin : min a.label_count b.label_count = b.label_count := by omega
  have hpairs : ∀ k < b.label_count, PairFoldEq a b k :=
    fun k hk => hpairs0 k (Nat.zero_le k) (by omega)
  obtain ⟨hsize, hbytes⟩ := c7_suffix a b ha hb hble hpairs (b.label_count - 1) (by omega)
  have hoffb : b.offsets.getD (b.label_count - 1 - (b.label_count - 1)) 0 = 0 := by
    have e : b.label_count - 1 - (b.label_count - 1) = 0 := by omega
    rw [e, hb7]
  rw [hoffb] at hsize hbytes
  have hlenba : b.raw.length ≤ a.raw.length := by omega
  have hoffA : a.offsets.getD (a.label_count - 1 - (b.label_count - 1)) 0 =
      a.raw.length - b.raw.length := by
    have h := inv_offset_le a ha8 ha9
      (a.offsets.length - 1 - (a.label_count - 1 - (b.label_count - 1)))
      (a.label_count - 1 - (b.label_count - 1)) (by omega)
    omega
  unfold Name.isSubdomain
  rw [if_neg (by omega)]
  apply c7_subGo a.raw b.raw (b.length - 1) (a.length - 1) (by omega)
  intro t h1 h2
  have hbt := hbytes t (by omega)
  have e1 : 0 + t = t := by omega
  have e2 : a.offsets.getD (a.label_count - 1 - (b.label_count - 1)) 0 + t =
      a.length - 1 - (b.length - 1 - t) := by omega
  rw [e1, e2] at hbt
  exact hbt.symm

/-- Witness for the amended C7: `c.ab.` relates to `ab.` as SubDomain, and
`is_subdomain` accepts it. -/
theorem c7_amended_relation_implies_subdomain_witness :
    Name.isSubdomain ⟨[1, 99, 2, 97, 98, 0], [0, 2, 5], 6, 3⟩
      ⟨[2, 97, 98, 0], [0, 3], 4, 2⟩ = true :=
  c7_amended_relation_implies_subdomain
    ⟨[1, 99, 2, 97, 98, 0], [0, 2, 5], 6, 3⟩ ⟨[2, 97, 98, 0], [0, 3], 4, 2⟩
    (by decide) (by decide) (by decide)

theorem sectionLoop_refines :
    ∀ (k : Nat) (buf : InputBuffer) (rs : List RRset) (b : InputBuffer)
      (acc : List RRset) (last : RRset),
      recordsFromWire k buf = RRes.ok (rs, b) →
      sectionLoop k buf acc last =
        match mergeGo last rs with
        | RRes.ok l => RRes.ok (acc ++ l, b)
        | RRes.err e => RRes.err e
        | RRes.panic => RRes.panic := by
  intro k
  induction k with
  | zero =>
    intro buf rs b acc last h
    simp only [recordsFromWire] at h
    cases h
    simp only [sectionLoop, mergeGo]
  | succ k ih =>
    intro buf rs b acc last h
    simp only [recordsFromWire] at h
    cases hr : RRset.fromWire buf with
    | err e => rw [hr] at h; simp only [rresBind] at h; exact RRes.noConfusion h
    | panic => rw [hr] at h; simp only [rresBind] at h; exact RRes.noConfusion h
    | ok rb =>
      obtain ⟨r, buf1⟩ := rb
      rw [hr] at h
      simp only [rresBind] at h
      cases hrec : recordsFromWire k buf1 with
      | err e => rw [hrec] at h; simp only [rresBind] at h; exact RRes.noConfusion h
      | panic => rw [hrec] at h; simp only [rresBind] at h; exact RRes.noConfusion h
      | ok rsb =>
        obtain ⟨rs1, b1⟩ := rsb
        rw [hrec] at h
        simp only [rresBind] at h
        cases h
        simp only [sectionLoop, hr]
        by_cases hsame : RRset.isSameRRset r last = true
        · rw [if_pos hsame]
          cases hrd : r.rdatas with
          | nil =>
            simp only [mergeGo, hsame, if_true, hrd]
          | cons d ds =>
            simp only []
            rw [ih buf1 rs1 b acc
              ⟨last.name, last.typ, last.rrclass, last.ttl, last.rdatas ++ [d]⟩ hrec]
            simp only [mergeGo, hsame, if_true, hrd]
        · rw [if_neg hsame]
          rw [ih buf1 rs1 b (acc ++ [last]) r hrec]
          have hmg : mergeGo last (r :: rs1) =
              match mergeGo r rs1 with
              | RRes.ok tail => RRes.ok (last :: tail)
              | RRes.err e => RRes.err e
              | RRes.panic => RRes.panic := by
            simp only [mergeGo, hsame, Bool.false_eq_true, if_false]
          rw [hmg]
          cases mergeGo r rs1 with
          | ok l => simp
          | err e => rfl
          | panic => rfl

/-- C8 amended.  `Section::from_wire` merges consecutive wire RRs exactly by
the `is_same_rrset` test, which compares only the type code and the name
(case-insensitively) — the class is not compared, so adjacent records sharing
name and type but differing in class are merged into one RRset; and only
adjacent records are ever compared, so non-adjacent records with identical
key are never merged.  Formally: a zero count yields the absent section, and
whenever the `n` records decode sequentially to `r :: rest`, the section is
exactly the adjacent-merge `mergeGo r rest` of that record list (whose merge
condition is `is_same_rrset`, and which panics when a merged record carries
no rdata, as `rrset.rdatas.remove(0)` does). -/
theorem c8_amended_merge_ignores_class :
    (∀ buf : InputBuffer, Section.fromWire buf 0 = RRes.ok (none, buf)) ∧
    (∀ (buf : InputBuffer) (n : Nat) (r : RRset) (rest : List RRset) (b : InputBuffer),
      recordsFromWire n buf = RRes.ok (r :: rest, b) →
      Section.fromWire buf n = sectionOfMerge (mergeGo r rest) b) := by
  constructor
  · intro buf; rfl
  · intro buf n r rest b h
    match n with
    | 0 => simp only [recordsFromWire] at h; cases h
    | n + 1 =>
      simp only [recordsFromWire] at h
      cases hr : RRset.fromWire buf with
      | err e => rw [hr] at h; simp only [rresBind] at h; exact RRes.noConfusion h
      | panic => rw [hr] at h; simp only [rresBind] at h; exact RRes.noConfusion h
      | ok rb =>
        obtain ⟨r0, buf1⟩ := rb
        rw [hr] at h
        simp only [rresBind] at h
        cases hrec : recordsFromWire n buf1 with
        | err e => rw [hrec] at h; simp only [rresBind] at h; exact RRes.noConfusion h
        | panic => rw [hrec] at h; simp only [rresBind] at h; exact RRes.noConfusion h
        | ok rsb =>
          obtain ⟨rs1, b1⟩ := rsb
          rw [hrec] at h
          simp only [rresBind] at h
          cases h
          simp only [Section.fromWire, Nat.succ_ne_zero, if_false, hr, rresBind,
            Nat.add_sub_cancel]
          rw [sectionLoop_refines n buf1 rest b [] r hrec]
          cases mergeGo r rest with
          | ok l => simp [sectionOfMerge, rresBind]
          | err e => rfl
          | panic => rfl

/-- C8 counterexample.  The claim states records are merged exactly when they
agree on all of name, type and class, and that adjacent records differing
only in class go to separate RRsets.  `is_same_rrset` does not compare the
class: two adjacent A records for `a.` with classes 1 (IN) and 3 (CH) decode
into a single RRset holding both rdatas (and the first record's class), not
two RRsets. -/
theorem c8_counterexample_class_ignored :
    recordsFromWire 2
        ⟨[1, 97, 0, 0, 1, 0, 1, 0, 0, 0, 0, 0, 4, 1, 2, 3, 4,
          1, 97, 0, 0, 1, 0, 3, 0, 0, 0, 0, 0, 4, 5, 6, 7, 8], 0⟩ =
      RRes.ok ([⟨⟨[1, 97, 0], [0, 2], 3, 2⟩, 1, 1, 0, [[1, 2, 3, 4]]⟩,
          ⟨⟨[1, 97, 0], [0, 2], 3, 2⟩, 1, 3, 0, [[5, 6, 7, 8]]⟩],
        ⟨[1, 97, 0, 0, 1, 0, 1, 0, 0, 0, 0, 0, 4, 1, 2, 3, 4,
          1, 97, 0, 0, 1, 0, 3, 0, 0, 0, 0, 0, 4, 5, 6, 7, 8], 34⟩) ∧
    (1 : Nat) ≠ 3 ∧
    Section.fromWire
        ⟨[1, 97, 0, 0, 1, 0, 1, 0, 0, 0, 0, 0, 4, 1, 2, 3, 4,
          1, 97, 0, 0, 1, 0, 3, 0, 0, 0, 0, 0, 4, 5, 6, 7, 8], 0⟩ 2 =
      RRes.ok (some [⟨⟨[1, 97, 0], [0, 2], 3, 2⟩, 1, 1, 0, [[1, 2, 3, 4], [5, 6, 7, 8]]⟩],
        ⟨[1, 97, 0, 0, 1, 0, 1, 0, 0, 0, 0, 0, 4, 1, 2, 3, 4,
          1, 97, 0, 0, 1, 0, 3, 0, 0, 0, 0, 0, 4, 5, 6, 7, 8], 34⟩) := by
  decide

/-- Witness for the amended C8: three records `a.`, `b.`, `a.` (all A, class
IN).  The adjacent pairs differ in name, so the merge keeps three RRsets: the
two non-adjacent identical records are not merged. -/
theorem c8_amended_merge_ignores_class_witness :
    Section.fromWire
        ⟨[1, 97, 0, 0, 1, 0, 1, 0, 0, 0, 0, 0, 4, 1, 2, 3, 4,
          1, 98, 0, 0, 1, 0, 1, 0, 0, 0, 0, 0, 4, 9, 9, 9, 9,
          1, 97, 0, 0, 1, 0, 1, 0, 0, 0, 0, 0, 4, 5, 6, 7, 8], 0⟩ 3 =
      sectionOfMerge
        (mergeGo ⟨⟨[1, 97, 0], [0, 2], 3, 2⟩, 1, 1, 0, [[1, 2, 3, 4]]⟩
          [⟨⟨[1, 98, 0], [0, 2], 3, 2⟩, 1, 1, 0, [[9, 9, 9, 9]]⟩,
            ⟨⟨[1, 97, 0], [0, 2], 3, 2⟩, 1, 1, 0, [[5, 6, 7, 8]]⟩])
        ⟨[1, 97, 0, 0, 1, 0, 1, 0, 0, 0, 0, 0, 4, 1, 2, 3, 4,
          1, 98, 0, 0, 1, 0, 1, 0, 0, 0, 0, 0, 4, 9, 9, 9, 9,
          1, 97, 0, 0, 1, 0, 1, 0, 0, 0, 0, 0, 4, 5, 6, 7, 8], 51⟩ :=
  c8_amended_merge_ignores_class.2
    ⟨[1, 97, 0, 0, 1, 0, 1, 0, 0, 0, 0, 0, 4, 1, 2, 3, 4,
      1, 98, 0, 0, 1, 0, 1, 0, 0, 0, 0, 0, 4, 9, 9, 9, 9,
      1, 97, 0, 0, 1, 0, 1, 0, 0, 0, 0, 0, 4, 5, 6, 7, 8], 0⟩ 3
    ⟨⟨[1, 97, 0], [0, 2], 3, 2⟩, 1, 1, 0, [[1, 2, 3, 4]]⟩
    [⟨⟨[1, 98, 0], [0, 2], 3, 2⟩, 1, 1, 0, [[9, 9, 9, 9]]⟩,
      ⟨⟨[1, 97, 0], [0, 2], 3, 2⟩, 1, 1, 0, [[5, 6, 7, 8]]⟩]
    ⟨[1, 97, 0, 0, 1, 0, 1, 0, 0, 0, 0, 0, 4, 1, 2, 3, 4,
      1, 98, 0, 0, 1, 0, 1, 0, 0, 0, 0, 0, 4, 9, 9, 9, 9,
      1, 97, 0, 0, 1, 0, 1, 0, 0, 0, 0, 0, 4, 5, 6, 7, 8], 51⟩
    (by decide)

/-- C3.  The claim states that the parsers and decoders always terminate with
a returned Result and never fail out-of-band.  Two panics disprove it.
First, `Name::new("a\bc")` (bytes [97, 92, 98, 99]): `string_parse` leaves its
loop through the `break` in the Escape state (src/name.rs line 204) with one
input byte still unread, and the `assert!(start == end)` at line 238 fails —
a panic, not a returned error.  Second, `Section::from_wire` on two adjacent
records with equal name and type whose second record has rdlength 0: the
merge step runs `rrset.rdatas.remove(0)` (src/message.rs line 44) on an empty
vector, which panics. -/
theorem c3_parsers_panic :
    Name.new [97, 92, 98, 99] = RRes.panic ∧
    Section.fromWire
        ⟨[1, 97, 0, 0, 1, 0, 1, 0, 0, 0, 0, 0, 0,
          1, 97, 0, 0, 1, 0, 1, 0, 0, 0, 0, 0, 0], 0⟩ 2 = RRes.panic := by
  decide
